import Mathlib

/-!
Shallow embedding of the voting / karma / comment-tree core of the forum
backend: the vote handler of `routes/posts.js` (`router.post('/:id/vote')`),
the vote, delete and listing handlers of `routes/comments.js`, and the
document shapes of `models/Post.js`, `models/Comment.js`, `models/Vote.js`
and the user model.

Documents are records; each Mongo collection is a list of records; `_id`
values are natural numbers.  JS numbers holding counters are embedded as
`Int` (the handlers decrement counters with plain `-= 1`, so negative values
are representable).  `findById` / `findOne` become `List.find?` on the id
field; `save` of a fetched-and-mutated document becomes replacing every
record with that id by the mutated record.
-/

set_option linter.unusedVariables false
set_option linter.unreachableTactic false
set_option linter.unusedTactic false
set_option linter.unnecessarySeqFocus false

/-- One entry of a target's `voters` array (`models/Post.js` /
`models/Comment.js`): `{ user: ObjectId, vote: Number }`. -/
structure Voter where
  user : Nat
  vote : Int
  deriving DecidableEq, Repr

/-- A `Post` document: the fields of `models/Post.js` that the vote, comment
and karma handlers read or write. -/
structure Post where
  id : Nat
  author : Nat
  upvotes : Int
  downvotes : Int
  commentCount : Int
  voters : List Voter
  deriving DecidableEq, Repr

/-- A `Comment` document: id, author, owning post, optional parent comment,
creation timestamp, counters and voters array. -/
structure Comment where
  id : Nat
  author : Nat
  post : Nat
  parentId : Option Nat
  createdAt : Nat
  upvotes : Int
  downvotes : Int
  voters : List Voter
  deriving DecidableEq, Repr

/-- A `User` document: id and karma. -/
structure User where
  id : Nat
  karma : Int
  deriving DecidableEq, Repr

/-- The persistent state: the three collections the handlers touch. -/
structure DB where
  posts : List Post
  comments : List Comment
  users : List User
  deriving DecidableEq, Repr

/-- Outcome of a vote request, as the handler reports it to the client:
`ok upvotes downvotes` is the 200 response
`{ message, upvotes, downvotes }`; `invalidVote` is the 400
`'Invalid vote value'`; `notFound` is the 404; `saveError` is the 400 the
surrounding `catch` produces when a write throws. -/
inductive VoteOutcome where
  | ok (upvotes downvotes : Int)
  | invalidVote
  | notFound
  | saveError
  deriving DecidableEq, Repr

/-- Replace the first element satisfying `p` by `y` (the effect of JS
`arr[i].vote = v` at `i = arr.findIndex(p)` when `findIndex` succeeds,
given that the written record coincides with `y`). -/
def setFirst (p : α → Bool) (y : α) : List α → List α
  | [] => []
  | a :: l => if p a then y :: l else a :: setFirst p y l

/-- The counter/voters update of both vote handlers (`routes/posts.js` and
`routes/comments.js` share this code verbatim).  JS finds the index of the
first `voters` entry whose `user` matches (`findIndex`); reading
`voters[existingVoteIndex]` is `find?`, `voters.splice(existingVoteIndex, 1)`
removes that first match (`eraseP`), and `voters[existingVoteIndex].vote = vote`
overwrites it in place (`setFirst`, the stored `user` already being `userId`).
The decrement of the previous vote's contribution happens before the
`vote === 0` test, exactly as in the source; there is no clamping. -/
def castVoteOnCounters (userId : Nat) (vote : Int) (up down : Int)
    (voters : List Voter) : Int × Int × List Voter :=
  match voters.find? (fun w => w.user == userId) with
  | some w =>
      let up1 := if w.vote = 1 then up - 1 else up
      let down1 := if w.vote = -1 then down - 1 else down
      if vote = 0 then
        (up1, down1, voters.eraseP (fun w => w.user == userId))
      else
        ((if vote = 1 then up1 + 1 else up1),
         (if vote = -1 then down1 + 1 else down1),
         setFirst (fun w => w.user == userId) { user := userId, vote := vote } voters)
  | none =>
      if vote = 0 then
        (up, down, voters)
      else
        ((if vote = 1 then up + 1 else up),
         (if vote = -1 then down + 1 else down),
         voters ++ [{ user := userId, vote := vote }])

/-- The `Post.aggregate` karma sum of both vote handlers: sum of
`upvotes - downvotes` over the posts authored by `authorId` (`$match` on
`author`, `$group` with `$sum` of `$subtract`). -/
def postKarmaSum (db : DB) (authorId : Nat) : Int :=
  ((db.posts.filter (fun p => p.author == authorId)).map
    (fun p => p.upvotes - p.downvotes)).sum

/-- The `Comment.aggregate` karma sum of the comment vote handler: sum of
`upvotes - downvotes` over the comments authored by `authorId`. -/
def commentKarmaSum (db : DB) (authorId : Nat) : Int :=
  ((db.comments.filter (fun c => c.author == authorId)).map
    (fun c => c.upvotes - c.downvotes)).sum

/-- `router.post('/:id/vote')` of `routes/posts.js`, with one fault switch:
`karmaSaveFails = true` models `await user.save()` in the karma section
throwing, in which case the exception reaches the handler's surrounding
`catch` and a 400 is returned — the earlier `await post.save()` has already
persisted the counter and voters mutation.  `karmaSaveFails = false` is the
fault-free handler.  Steps, in source order: validate `vote ∈ {1, 0, -1}`
(400 otherwise), `Post.findById` (404 if absent), apply the counter/voters
update, `post.save()`, `User.findById(post.author)` and — only when that
user exists — recompute the author's karma from the author's **posts only**
and `user.save()`; finally respond with the post's counters. -/
def castVotePostAux (karmaSaveFails : Bool) (db : DB) (userId postId : Nat)
    (vote : Int) : DB × VoteOutcome :=
  if ¬ (vote = 1 ∨ vote = 0 ∨ vote = -1) then (db, .invalidVote)
  else
    match db.posts.find? (fun p => p.id == postId) with
    | none => (db, .notFound)
    | some post =>
        let r := castVoteOnCounters userId vote post.upvotes post.downvotes post.voters
        let post' : Post :=
          { post with upvotes := r.1, downvotes := r.2.1, voters := r.2.2 }
        let db1 : DB :=
          { db with posts := db.posts.map (fun p => if p.id == postId then post' else p) }
        match db1.users.find? (fun u => u.id == post.author) with
        | none => (db1, .ok post'.upvotes post'.downvotes)
        | some _ =>
            if karmaSaveFails then (db1, .saveError)
            else
              let k := postKarmaSum db1 post.author
              let db2 : DB :=
                { db1 with users := (db1.users.map
                    (fun u => if u.id == post.author then { u with karma := k } else u)) }
              (db2, .ok post'.upvotes post'.downvotes)

/-- The fault-free post vote handler. -/
def castVotePost (db : DB) (userId postId : Nat) (vote : Int) : DB × VoteOutcome :=
  castVotePostAux false db userId postId vote

/-- `router.post('/:id/vote')` of `routes/comments.js`: same shape as the
post handler, but on the comments collection, and the karma written for the
comment's author is `postKarma + commentKarma` (the sum over the author's
posts plus the sum over the author's comments). -/
def castVoteComment (db : DB) (userId commentId : Nat) (vote : Int) :
    DB × VoteOutcome :=
  if ¬ (vote = 1 ∨ vote = 0 ∨ vote = -1) then (db, .invalidVote)
  else
    match db.comments.find? (fun c => c.id == commentId) with
    | none => (db, .notFound)
    | some comment =>
        let r := castVoteOnCounters userId vote comment.upvotes comment.downvotes
          comment.voters
        let comment' : Comment :=
          { comment with upvotes := r.1, downvotes := r.2.1, voters := r.2.2 }
        let db1 : DB :=
          { db with comments := (db.comments.map
              (fun c => if c.id == commentId then comment' else c)) }
        match db1.users.find? (fun u => u.id == comment.author) with
        | none => (db1, .ok comment'.upvotes comment'.downvotes)
        | some _ =>
            let k := postKarmaSum db1 comment.author + commentKarmaSum db1 comment.author
            let db2 : DB :=
              { db1 with users := (db1.users.map
                  (fun u => if u.id == comment.author then { u with karma := k } else u)) }
            (db2, .ok comment'.upvotes comment'.downvotes)

/-- Outcome of `router.delete('/:id')` of `routes/comments.js`. -/
inductive DeleteOutcome where
  | ok
  | notFound
  | notAuthorized
  deriving DecidableEq, Repr

/-- `router.delete('/:id')` of `routes/comments.js`: `Comment.findById`
(404 if absent), author check (403), `comment.remove()` (remove that
document), then `Post.findById(comment.post)` and, when the post exists,
`post.commentCount = Math.max(0, post.commentCount - 1)` and `post.save()`. -/
def deleteComment (db : DB) (userId commentId : Nat) : DB × DeleteOutcome :=
  match db.comments.find? (fun c => c.id == commentId) with
  | none => (db, .notFound)
  | some comment =>
      if comment.author ≠ userId then (db, .notAuthorized)
      else
        let db1 : DB :=
          { db with comments := db.comments.eraseP (fun c => c.id == commentId) }
        match db1.posts.find? (fun p => p.id == comment.post) with
        | none => (db1, .ok)
        | some post =>
            let post' : Post := { post with commentCount := max 0 (post.commentCount - 1) }
            ({ db1 with posts := (db1.posts.map
                (fun p => if p.id == comment.post then post' else p)) }, .ok)

/-- A node of the assembled comment tree: the comment plus its populated
`replies` (a comment the source leaves without a `replies` field is the node
with `replies = []`). -/
inductive CommentNode where
  | mk (comment : Comment) (replies : List CommentNode)

/-- The comment stored at a node. -/
def CommentNode.comment : CommentNode → Comment
  | .mk c _ => c

/-- The populated replies of a node. -/
def CommentNode.replies : CommentNode → List CommentNode
  | .mk _ rs => rs

/-- `Comment.find({...}).sort({ createdAt: -1 })`: newest first. -/
def sortNewestFirst (l : List Comment) : List Comment :=
  l.mergeSort (fun a b => b.createdAt ≤ a.createdAt)

/-- `Comment.find({...}).sort({ createdAt: 1 })`: oldest first. -/
def sortOldestFirst (l : List Comment) : List Comment :=
  l.mergeSort (fun a b => a.createdAt ≤ b.createdAt)

/-- `populateReplies` of `router.get('/post/:postId')` in
`routes/comments.js`: for each comment of the given list, fetch its direct
replies (`Comment.find({ parentId: comment._id })` over the whole
collection, sorted oldest first) and recurse into them.  The JS recursion
descends one level per call and never terminates on a `parentId` cycle; the
embedding spends one unit of `fuel` per level, and `buildTree` supplies
enough fuel to exhaust any acyclic forest. -/
def populateReplies (all : List Comment) : Nat → List Comment → List CommentNode
  | 0, cs => cs.map (fun c => .mk c [])
  | fuel + 1, cs =>
      cs.map (fun c =>
        .mk c (populateReplies all fuel
          (sortOldestFirst (all.filter (fun r => r.parentId == some c.id)))))

/-- `router.get('/post/:postId')` of `routes/comments.js`: fetch the root
comments of the post (`Comment.find({ post: postId, parentId: null })`,
sorted newest first) and populate their reply trees. -/
def buildTree (all : List Comment) (postId : Nat) : List CommentNode :=
  populateReplies all all.length
    (sortNewestFirst (all.filter (fun c => c.post == postId && c.parentId == none)))

/-- The karma currently stored for a user, `none` when no such user exists. -/
def userKarma (db : DB) (userId : Nat) : Option Int :=
  (db.users.find? (fun u => u.id == userId)).map (fun u => u.karma)

/-- Sequential composition of post-vote requests against one target id:
each element `(user, value)` of `s` is one `castVote` call, applied left to
right (the serialized settled order of C2). -/
def applyCasts (tid : Nat) (s : List (Nat × Int)) (db : DB) : DB :=
  s.foldl (fun d c => (castVotePost d c.1 tid c.2).1) db

/-- The same cast sequence tracked on a single target's counters and voters
array. -/
def applyCounterCasts (s : List (Nat × Int)) (st : Int × Int × List Voter) :
    Int × Int × List Voter :=
  s.foldl (fun t c => castVoteOnCounters c.1 c.2 t.1 t.2.1 t.2.2) st

/-- The voters array that a sequence of first-time casts by distinct users
leaves on a fresh target: one record per non-zero cast, in cast order. -/
def votersOfCasts (s : List (Nat × Int)) : List Voter :=
  (s.filter (fun c => c.2 != 0)).map (fun c => { user := c.1, vote := c.2 })

/-- Every node of an assembled comment forest has its direct replies in
ascending `createdAt` order (conversational order), at every depth. -/
inductive RepliesOrdered : CommentNode → Prop where
  | mk (c : Comment) (rs : List CommentNode)
      (hsorted : List.Sorted (fun a b => a.comment.createdAt ≤ b.comment.createdAt) rs)
      (hrec : ∀ r ∈ rs, RepliesOrdered r) : RepliesOrdered (.mk c rs)

/-! ### Generic list lemmas about the operations the handlers perform -/

/-- Saving a fetched document: after replacing every record matched by `p`
with a record `q` that still matches `p`, `find?` returns `q`. -/
theorem findReplace_find {α : Type} (p : α → Bool) (q : α) (hq : p q = true) :
    ∀ (l : List α) (x : α), l.find? p = some x →
      (l.map (fun y => if p y then q else y)).find? p = some q := by
  intro l
  induction l with
  | nil => intro x hx; simp at hx
  | cons a t ih =>
      intro x hx
      cases hpa : p a with
      | true => simp [List.find?_cons, hpa, hq]
      | false =>
          simp only [List.find?_cons, hpa] at hx
          simp [List.find?_cons, hpa, ih x hx]

/-- Replacing every `p`-match by a fixed `p`-matching record is idempotent. -/
theorem mapReplace_idem {α : Type} (p : α → Bool) (q : α) (hq : p q = true)
    (l : List α) :
    (l.map (fun y => if p y then q else y)).map (fun y => if p y then q else y)
      = l.map (fun y => if p y then q else y) := by
  rw [List.map_map]
  apply List.map_congr_left
  intro a _
  by_cases hpa : p a = true <;> simp [hpa, hq]

/-- `find?` commutes with a map that does not change whether records match. -/
theorem find_map_pres {α : Type} (g : α → α) (p : α → Bool)
    (hp : ∀ x, p (g x) = p x) :
    ∀ l : List α, (l.map g).find? p = (l.find? p).map g := by
  intro l
  induction l with
  | nil => simp
  | cons a t ih =>
      by_cases hpa : p a = true
      · simp [List.find?_cons, hp, hpa]
      · simp only [Bool.not_eq_true] at hpa
        simp [List.find?_cons, hp, hpa, ih]

/-- After overwriting the first `p`-match with a `p`-matching `y`, `find?`
returns `y`. -/
theorem setFirst_find {α : Type} (p : α → Bool) (y : α) (hy : p y = true) :
    ∀ (l : List α) (x : α), l.find? p = some x →
      (setFirst p y l).find? p = some y := by
  intro l
  induction l with
  | nil => intro x hx; simp at hx
  | cons a t ih =>
      intro x hx
      by_cases hpa : p a = true
      · simp [setFirst, hpa, List.find?_cons, hy]
      · simp only [Bool.not_eq_true] at hpa
        simp only [List.find?_cons, hpa] at hx
        simp [setFirst, hpa, List.find?_cons, ih x hx]

/-- Overwriting the first `p`-match with itself changes nothing. -/
theorem setFirst_self {α : Type} (p : α → Bool) :
    ∀ (l : List α) (x : α), l.find? p = some x → setFirst p x l = l := by
  intro l
  induction l with
  | nil => intro x hx; simp at hx
  | cons a t ih =>
      intro x hx
      by_cases hpa : p a = true
      · simp only [List.find?_cons, hpa] at hx
        simp [setFirst, hpa, ← Option.some_inj.mp hx]
      · simp only [Bool.not_eq_true] at hpa
        simp only [List.find?_cons, hpa] at hx
        simp [setFirst, hpa, ih x hx]

/-- Appending a matching record to a list with no match makes it the one
`find?` returns. -/
theorem find_append_singleton {α : Type} (p : α → Bool) (y : α) (hy : p y = true)
    (l : List α) (hl : l.find? p = none) : (l ++ [y]).find? p = some y := by
  simp [List.find?_append, hl, List.find?_cons, hy]

/-- Removing the first record with a given key from a list whose keys are
distinct leaves no record with that key. -/
theorem eraseP_find_none {α : Type} (f : α → Nat) (u : Nat) :
    ∀ l : List α, (l.map f).Nodup →
      (l.eraseP (fun x => f x == u)).find? (fun x => f x == u) = none := by
  intro l
  induction l with
  | nil => simp
  | cons a t ih =>
      intro hnd
      simp only [List.map_cons, List.nodup_cons] at hnd
      by_cases hpa : (f a == u) = true
      · have hau : f a = u := by simpa using hpa
        rw [List.eraseP_cons, hpa]
        simp only [List.find?_eq_none]
        intro x hx
        have : f x ≠ f a := fun he => hnd.1 (he ▸ List.mem_map_of_mem f hx)
        simp [hau ▸ this]
      · simp only [Bool.not_eq_true] at hpa
        rw [List.eraseP_cons, hpa]
        simp [List.find?_cons, hpa, ih hnd.2]

/-- Removing the first `p`-match removes exactly that record from every
`countP` tally. -/
theorem countP_eraseP_find {α : Type} (p q : α → Bool) :
    ∀ (l : List α) (w : α), l.find? p = some w →
      l.countP q = (l.eraseP p).countP q + (if q w = true then 1 else 0) := by
  intro l
  induction l with
  | nil => intro w hw; simp at hw
  | cons a t ih =>
      intro w hw
      by_cases hpa : p a = true
      · simp only [List.find?_cons, hpa] at hw
        rw [List.eraseP_cons, hpa, ← Option.some_inj.mp hw]
        simp [List.countP_cons, Nat.add_comm]
      · simp only [Bool.not_eq_true] at hpa
        simp only [List.find?_cons, hpa] at hw
        rw [List.eraseP_cons, hpa]
        simp only [cond_false, List.countP_cons, ih w hw]
        omega

/-- Overwriting the first `p`-match by `y` swaps that record's contribution
to every `countP` tally for `y`'s. -/
theorem countP_setFirst_find {α : Type} (p q : α → Bool) (y : α) :
    ∀ (l : List α) (w : α), l.find? p = some w →
      (setFirst p y l).countP q + (if q w = true then 1 else 0)
        = l.countP q + (if q y = true then 1 else 0) := by
  intro l
  induction l with
  | nil => intro w hw; simp at hw
  | cons a t ih =>
      intro w hw
      cases hpa : p a with
      | true =>
          simp only [List.find?_cons, hpa] at hw
          rw [← Option.some_inj.mp hw]
          simp only [setFirst, hpa, if_true, List.countP_cons]
          omega
      | false =>
          simp only [List.find?_cons, hpa] at hw
          simp [setFirst, hpa, List.countP_cons]
          have := ih w hw
          omega

/-- Replacing every key-match by the record `find?` already returns is the
identity when keys are distinct. -/
theorem mapReplace_self_of_nodup {α : Type} (f : α → Nat) (u : Nat) :
    ∀ (l : List α) (y : α), (l.map f).Nodup →
      l.find? (fun x => f x == u) = some y →
      l.map (fun x => if f x == u then y else x) = l := by
  intro l
  induction l with
  | nil => intro y _ hy; simp at hy
  | cons a t ih =>
      intro y hnd hy
      simp only [List.map_cons, List.nodup_cons] at hnd
      by_cases hpa : (f a == u) = true
      · have hau : f a = u := by simpa using hpa
        simp only [List.find?_cons, hpa] at hy
        have hya : y = a := (Option.some_inj.mp hy).symm
        subst hya
        simp only [List.map_cons, if_pos hpa]
        congr 1
        have : ∀ x ∈ t, (if (f x == u) = true then y else x) = x := by
          intro x hx
          have : f x ≠ f y := fun he => hnd.1 (he ▸ List.mem_map_of_mem f hx)
          simp [show (f x == u) = false by simp [hau ▸ this]]
        calc t.map (fun x => if f x == u then y else x) = t.map id :=
              List.map_congr_left (by simpa using this)
          _ = t := List.map_id t
      · simp only [Bool.not_eq_true] at hpa
        simp only [List.find?_cons, hpa] at hy
        have h1 : (fun x => if f x == u then y else x) a = a := by simp [hpa]
        simp only [List.map_cons, h1]
        rw [ih y hnd.2 hy]

/-! ### The counter/voters invariant of a vote cast -/

/-- One cast keeps the denormalized counters equal to the tallies of the
voters array (for any requested value and any previously stored votes). -/
theorem castVoteOnCounters_consistent (u : Nat) (v : Int) (up down : Int)
    (voters : List Voter)
    (hup : up = (voters.countP (fun w => w.vote == 1) : Int))
    (hdown : down = (voters.countP (fun w => w.vote == -1) : Int)) :
    (castVoteOnCounters u v up down voters).1
        = (((castVoteOnCounters u v up down voters).2.2).countP
            (fun w => w.vote == 1) : Int)
      ∧ (castVoteOnCounters u v up down voters).2.1
        = (((castVoteOnCounters u v up down voters).2.2).countP
            (fun w => w.vote == -1) : Int) := by
  unfold castVoteOnCounters
  cases hf : voters.find? (fun w => w.user == u) with
  | some w =>
      have h1 := countP_eraseP_find (fun w => w.user == u)
        (fun w => w.vote == 1) voters w hf
      have h2 := countP_eraseP_find (fun w => w.user == u)
        (fun w => w.vote == -1) voters w hf
      have h3 := countP_setFirst_find (fun w => w.user == u)
        (fun w => w.vote == 1) { user := u, vote := v } voters w hf
      have h4 := countP_setFirst_find (fun w => w.user == u)
        (fun w => w.vote == -1) { user := u, vote := v } voters w hf
      simp only [beq_iff_eq] at h1 h2 h3 h4
      by_cases hv0 : v = 0 <;> by_cases hv1 : v = 1 <;> by_cases hvm : v = -1 <;>
        by_cases hw1 : w.vote = 1 <;> by_cases hwm : w.vote = -1 <;>
          simp_all <;> omega
  | none =>
      by_cases hv0 : v = 0 <;> by_cases hv1 : v = 1 <;> by_cases hvm : v = -1 <;>
        simp_all [List.countP_append, List.countP_cons] <;> omega

/-! ### Shape of the handlers' results -/

/-- After a valid vote on an existing post, the posts collection is the old
one with every record of the target id replaced by the updated target. -/
theorem castVotePostAux_posts (b : Bool) (db : DB) (u tid : Nat) (v : Int)
    (hv : v = 1 ∨ v = 0 ∨ v = -1) (post : Post)
    (hfind : db.posts.find? (fun p => p.id == tid) = some post) :
    ((castVotePostAux b db u tid v).1).posts
      = db.posts.map (fun p => if p.id == tid then
          { post with
              upvotes := (castVoteOnCounters u v post.upvotes post.downvotes post.voters).1,
              downvotes := (castVoteOnCounters u v post.upvotes post.downvotes post.voters).2.1,
              voters := (castVoteOnCounters u v post.upvotes post.downvotes post.voters).2.2 }
          else p) := by
  unfold castVotePostAux
  rw [if_neg (not_not_intro hv), hfind]
  dsimp only
  split
  · rfl
  · split
    · rfl
    · rfl

/-- After a valid vote on an existing post, the fault-free handler reports
success with the updated counters; the users collection is either untouched
(author user absent) or has the author's karma overwritten with the sum over
the author's posts; comments are untouched. -/
theorem castVotePost_ok (db : DB) (u tid : Nat) (v : Int)
    (hv : v = 1 ∨ v = 0 ∨ v = -1) (post : Post)
    (hfind : db.posts.find? (fun p => p.id == tid) = some post) :
    (castVotePost db u tid v).2
      = .ok (castVoteOnCounters u v post.upvotes post.downvotes post.voters).1
            (castVoteOnCounters u v post.upvotes post.downvotes post.voters).2.1
    ∧ (castVotePost db u tid v).1.comments = db.comments := by
  unfold castVotePost castVotePostAux
  rw [if_neg (not_not_intro hv), hfind]
  dsimp only
  split
  · exact ⟨rfl, rfl⟩
  · exact ⟨rfl, rfl⟩

/-- After a valid vote on an existing comment, the comments collection is
the old one with every record of the target id replaced by the updated
target. -/
theorem castVoteComment_comments (db : DB) (u cid : Nat) (v : Int)
    (hv : v = 1 ∨ v = 0 ∨ v = -1) (comment : Comment)
    (hfind : db.comments.find? (fun c => c.id == cid) = some comment) :
    ((castVoteComment db u cid v).1).comments
      = db.comments.map (fun c => if c.id == cid then
          { comment with
              upvotes := (castVoteOnCounters u v comment.upvotes comment.downvotes
                comment.voters).1,
              downvotes := (castVoteOnCounters u v comment.upvotes comment.downvotes
                comment.voters).2.1,
              voters := (castVoteOnCounters u v comment.upvotes comment.downvotes
                comment.voters).2.2 }
          else c) := by
  unfold castVoteComment
  rw [if_neg (not_not_intro hv), hfind]
  dsimp only
  split
  · rfl
  · rfl

/-- After a valid vote on an existing comment, the handler reports success
with the updated counters, and the posts collection is untouched. -/
theorem castVoteComment_ok (db : DB) (u cid : Nat) (v : Int)
    (hv : v = 1 ∨ v = 0 ∨ v = -1) (comment : Comment)
    (hfind : db.comments.find? (fun c => c.id == cid) = some comment) :
    (castVoteComment db u cid v).2
      = .ok (castVoteOnCounters u v comment.upvotes comment.downvotes comment.voters).1
            (castVoteOnCounters u v comment.upvotes comment.downvotes comment.voters).2.1
    ∧ (castVoteComment db u cid v).1.posts = db.posts := by
  unfold castVoteComment
  rw [if_neg (not_not_intro hv), hfind]
  dsimp only
  split
  · exact ⟨rfl, rfl⟩
  · exact ⟨rfl, rfl⟩

/-! ### C6: failed casts perform no mutation -/

/-- C6.  `castVote` is atomic on failure: an out-of-range vote value is
rejected with the invalid-vote error and a missing target with the
not-found error, and in both cases — for posts and for comments alike —
the returned state is exactly the input state: no counter, vote-record or
karma mutation happens. -/
theorem castVote_failure_no_mutation :
    (∀ (db : DB) (u tid : Nat) (v : Int), ¬ (v = 1 ∨ v = 0 ∨ v = -1) →
        castVotePost db u tid v = (db, .invalidVote))
    ∧ (∀ (db : DB) (u tid : Nat) (v : Int), (v = 1 ∨ v = 0 ∨ v = -1) →
        db.posts.find? (fun p => p.id == tid) = none →
        castVotePost db u tid v = (db, .notFound))
    ∧ (∀ (db : DB) (u cid : Nat) (v : Int), ¬ (v = 1 ∨ v = 0 ∨ v = -1) →
        castVoteComment db u cid v = (db, .invalidVote))
    ∧ (∀ (db : DB) (u cid : Nat) (v : Int), (v = 1 ∨ v = 0 ∨ v = -1) →
        db.comments.find? (fun c => c.id == cid) = none →
        castVoteComment db u cid v = (db, .notFound)) := by
  refine ⟨?_, ?_, ?_, ?_⟩
  · intro db u tid v hv
    unfold castVotePost castVotePostAux
    rw [if_pos hv]
  · intro db u tid v hv hfind
    unfold castVotePost castVotePostAux
    rw [if_neg (not_not_intro hv), hfind]
  · intro db u cid v hv
    unfold castVoteComment
    rw [if_pos hv]
  · intro db u cid v hv hfind
    unfold castVoteComment
    rw [if_neg (not_not_intro hv), hfind]

/-- Witness for C6 at concrete inputs: vote value `5` on an existing post
is rejected as invalid, and a vote on the absent post id `99` is rejected
as not found, both leaving the one-post state untouched. -/
theorem castVote_failure_no_mutation_witness :
    castVotePost ⟨[⟨10, 1, 0, 0, 0, []⟩], [], []⟩ 2 10 5
        = (⟨[⟨10, 1, 0, 0, 0, []⟩], [], []⟩, .invalidVote)
      ∧ castVotePost ⟨[⟨10, 1, 0, 0, 0, []⟩], [], []⟩ 2 99 1
        = (⟨[⟨10, 1, 0, 0, 0, []⟩], [], []⟩, .notFound)
      ∧ castVoteComment ⟨[], [⟨20, 1, 10, none, 0, 0, 0, []⟩], []⟩ 2 20 (-7)
        = (⟨[], [⟨20, 1, 10, none, 0, 0, 0, []⟩], []⟩, .invalidVote)
      ∧ castVoteComment ⟨[], [⟨20, 1, 10, none, 0, 0, 0, []⟩], []⟩ 2 21 0
        = (⟨[], [⟨20, 1, 10, none, 0, 0, 0, []⟩], []⟩, .notFound) :=
  ⟨castVote_failure_no_mutation.1 _ 2 10 5 (by decide),
   castVote_failure_no_mutation.2.1 _ 2 99 1 (by decide) (by decide),
   castVote_failure_no_mutation.2.2.1 _ 2 20 (-7) (by decide),
   castVote_failure_no_mutation.2.2.2 _ 2 21 0 (by decide) (by decide)⟩

/-! ### C4: the counters are not clamped; consistency is what keeps them
non-negative -/

/-- C4 counterexample.  The vote handlers contain no zero-floor clamp: on a
post whose stored voters array records an upvote by user 7 that is not
reflected in the counters, user 7 retracting the vote (value 0) drives
`upvotes` to `-1`. -/
theorem no_clamp_counterexample :
    ((castVotePost ⟨[⟨10, 1, 0, 0, 0, [⟨7, 1⟩]⟩], [], []⟩ 7 10 0).1.posts.map
      (fun p => p.upvotes)) = [-1] ∧ (-1 : Int) < 0 := by decide

/-- C4 as amended.  `castVote` keeps the counters equal to the tallies of
the voters array — hence non-negative — whenever the target starts
consistent; from an inconsistent start nothing clamps them (see the
counterexample).  Stated for the post handler and the comment handler. -/
theorem counters_nonneg_of_consistent :
    (∀ (db : DB) (u tid : Nat) (v : Int), (v = 1 ∨ v = 0 ∨ v = -1) →
      ∀ post : Post, db.posts.find? (fun p => p.id == tid) = some post →
        post.upvotes = (post.voters.countP (fun w => w.vote == 1) : Int) →
        post.downvotes = (post.voters.countP (fun w => w.vote == -1) : Int) →
        ∀ p' ∈ (castVotePost db u tid v).1.posts, p'.id = tid →
          0 ≤ p'.upvotes ∧ 0 ≤ p'.downvotes)
    ∧ (∀ (db : DB) (u cid : Nat) (v : Int), (v = 1 ∨ v = 0 ∨ v = -1) →
      ∀ comment : Comment, db.comments.find? (fun c => c.id == cid) = some comment →
        comment.upvotes = (comment.voters.countP (fun w => w.vote == 1) : Int) →
        comment.downvotes = (comment.voters.countP (fun w => w.vote == -1) : Int) →
        ∀ c' ∈ (castVoteComment db u cid v).1.comments, c'.id = cid →
          0 ≤ c'.upvotes ∧ 0 ≤ c'.downvotes) := by
  constructor
  · intro db u tid v hv post hfind hup hdown p' hp' hid
    rw [show castVotePost db u tid v = castVotePostAux false db u tid v from rfl,
      castVotePostAux_posts false db u tid v hv post hfind] at hp'
    rcases List.mem_map.mp hp' with ⟨p0, hp0, heq⟩
    have hcons := castVoteOnCounters_consistent u v post.upvotes post.downvotes
      post.voters hup hdown
    by_cases h : (p0.id == tid) = true
    · rw [if_pos h] at heq
      rw [← heq]
      exact ⟨hcons.1 ▸ Int.natCast_nonneg _, hcons.2 ▸ Int.natCast_nonneg _⟩
    · rw [if_neg h] at heq
      rw [← heq] at hid
      exact absurd hid (by simpa using h)
  · intro db u cid v hv comment hfind hup hdown c' hc' hid
    rw [castVoteComment_comments db u cid v hv comment hfind] at hc'
    rcases List.mem_map.mp hc' with ⟨c0, hc0, heq⟩
    have hcons := castVoteOnCounters_consistent u v comment.upvotes comment.downvotes
      comment.voters hup hdown
    by_cases h : (c0.id == cid) = true
    · rw [if_pos h] at heq
      rw [← heq]
      exact ⟨hcons.1 ▸ Int.natCast_nonneg _, hcons.2 ▸ Int.natCast_nonneg _⟩
    · rw [if_neg h] at heq
      rw [← heq] at hid
      exact absurd hid (by simpa using h)

/-- Witness for the amended C4: user 2 retracting their recorded upvote on a
consistent post leaves the stored counters at (0, 0), which are
non-negative. -/
theorem counters_nonneg_of_consistent_witness :
    0 ≤ (Post.mk 10 1 0 0 0 []).upvotes ∧ 0 ≤ (Post.mk 10 1 0 0 0 []).downvotes :=
  counters_nonneg_of_consistent.1 ⟨[⟨10, 1, 1, 0, 0, [⟨2, 1⟩]⟩], [], []⟩ 2 10 0
    (by decide) ⟨10, 1, 1, 0, 0, [⟨2, 1⟩]⟩ (by decide) (by decide) (by decide)
    ⟨10, 1, 0, 0, 0, []⟩ (by decide) rfl

/-! ### C10: comment deletion clamps the post's commentCount at zero -/

/-- C10.  When a comment is deleted, the parent post's `commentCount` is set
to `max 0 (commentCount - 1)`, so after the deletion every stored post with
the parent's id has a non-negative `commentCount`, whatever value (even a
negative one) it held before. -/
theorem deleteComment_commentCount_nonneg (db : DB) (u cid : Nat) (c : Comment)
    (hfind : db.comments.find? (fun x => x.id == cid) = some c)
    (hauth : c.author = u) :
    ∀ p ∈ (deleteComment db u cid).1.posts, p.id = c.post → 0 ≤ p.commentCount := by
  intro p hp hid
  unfold deleteComment at hp
  rw [hfind] at hp
  dsimp only at hp
  rw [if_neg (by simp [hauth])] at hp
  split at hp
  · next hnone =>
      have := List.find?_eq_none.mp hnone p (by simpa using hp)
      exact absurd hid (by simpa using this)
  · next post hsome =>
      simp only at hp
      rcases List.mem_map.mp hp with ⟨p0, hp0, heq⟩
      by_cases h : (p0.id == c.post) = true
      · rw [if_pos h] at heq
        rw [← heq]
        exact le_max_left 0 _
      · rw [if_neg h] at heq
        rw [← heq] at hid
        exact absurd hid (by simpa using h)

/-- Witness for C10: author 1 deletes comment 20 on post 10 whose stored
`commentCount` is 0; the clamp leaves the post's count at 0. -/
theorem deleteComment_commentCount_nonneg_witness :
    0 ≤ (Post.mk 10 1 0 0 0 []).commentCount :=
  deleteComment_commentCount_nonneg
    ⟨[⟨10, 1, 0, 0, 0, []⟩], [⟨20, 1, 10, none, 0, 0, 0, []⟩], []⟩ 1 20
    ⟨20, 1, 10, none, 0, 0, 0, []⟩ (by decide) rfl
    ⟨10, 1, 0, 0, 0, []⟩ (by decide) rfl

/-! ### C1: what karma the handlers actually write -/

/-- Writing karma `k` for author `A` (the `user.save()` step): `find?` on the
mapped users collection returns the author with karma overwritten by `k`. -/
theorem userKarma_after_set (users : List User) (A : Nat) (k : Int) (usr : User)
    (husr : users.find? (fun x => x.id == A) = some usr) :
    (users.map (fun x => if x.id == A then { x with karma := k } else x)).find?
      (fun x => x.id == A) = some { usr with karma := k } := by
  rw [find_map_pres (fun x => if x.id == A then { x with karma := k } else x)
    (fun x => x.id == A)
    (fun x => by by_cases hx : (x.id == A) = true <;> simp [hx]) users, husr]
  have hu : (usr.id == A) = true :=
    @List.find?_some User (fun x => x.id == A) usr users husr
  simp [hu]
  intro h
  exact absurd (by simpa using hu) h

/-- C1 counterexample.  Author 1 owns post 10 (no votes) and comment 20
(one upvote, net +1).  User 2 upvotes the post: the post handler overwrites
the author's karma with the sum over the author's **posts only** (`1`),
while the sum over all of the author's posts and comments is `2`. -/
theorem karma_posts_only_counterexample :
    userKarma (castVotePost ⟨[⟨10, 1, 0, 0, 0, []⟩],
        [⟨20, 1, 10, none, 0, 1, 0, [⟨2, 1⟩]⟩], [⟨1, 5⟩]⟩ 2 10 1).1 1 = some 1
      ∧ postKarmaSum (castVotePost ⟨[⟨10, 1, 0, 0, 0, []⟩],
          [⟨20, 1, 10, none, 0, 1, 0, [⟨2, 1⟩]⟩], [⟨1, 5⟩]⟩ 2 10 1).1 1
        + commentKarmaSum (castVotePost ⟨[⟨10, 1, 0, 0, 0, []⟩],
          [⟨20, 1, 10, none, 0, 1, 0, [⟨2, 1⟩]⟩], [⟨1, 5⟩]⟩ 2 10 1).1 1 = 2
      ∧ (1 : Int) ≠ 2 := by decide

/-- C1 as amended.  When a valid cast on an existing target settles and the
author's user record exists, the karma stored for the author is: after a
**comment** vote, the sum of (upvotes − downvotes) over all the author's
posts and comments — but after a **post** vote, the sum over the author's
posts only (the comment contribution is dropped). -/
theorem karma_after_cast_amended :
    (∀ (db : DB) (u tid : Nat) (v : Int), (v = 1 ∨ v = 0 ∨ v = -1) →
      ∀ post : Post, db.posts.find? (fun p => p.id == tid) = some post →
        (db.users.find? (fun x => x.id == post.author)).isSome →
        userKarma (castVotePost db u tid v).1 post.author
          = some (postKarmaSum (castVotePost db u tid v).1 post.author))
    ∧ (∀ (db : DB) (u cid : Nat) (v : Int), (v = 1 ∨ v = 0 ∨ v = -1) →
      ∀ comment : Comment, db.comments.find? (fun c => c.id == cid) = some comment →
        (db.users.find? (fun x => x.id == comment.author)).isSome →
        userKarma (castVoteComment db u cid v).1 comment.author
          = some (postKarmaSum (castVoteComment db u cid v).1 comment.author
              + commentKarmaSum (castVoteComment db u cid v).1 comment.author)) := by
  constructor
  · intro db u tid v hv post hfind hus
    rcases Option.isSome_iff_exists.mp hus with ⟨usr, husr⟩
    unfold castVotePost castVotePostAux
    rw [if_neg (not_not_intro hv), hfind]
    dsimp only
    rw [husr]
    simp only [Bool.false_eq_true, ite_false]
    unfold userKarma
    try dsimp only
    rw [userKarma_after_set db.users post.author _ usr husr]
    rfl
  · intro db u cid v hv comment hfind hus
    rcases Option.isSome_iff_exists.mp hus with ⟨usr, husr⟩
    unfold castVoteComment
    rw [if_neg (not_not_intro hv), hfind]
    dsimp only
    rw [husr]
    try dsimp only
    unfold userKarma
    try dsimp only
    rw [userKarma_after_set db.users comment.author _ usr husr]
    rfl

/-- Witness for the amended C1: user 2 upvotes post 10 and then comment 20,
in a one-post, one-comment, one-user state; both stored karma values match
the respective sums the theorem names. -/
theorem karma_after_cast_amended_witness :
    userKarma (castVotePost ⟨[⟨10, 1, 0, 0, 0, []⟩],
        [⟨20, 1, 10, none, 0, 1, 0, [⟨3, 1⟩]⟩], [⟨1, 5⟩]⟩ 2 10 1).1 1
      = some (postKarmaSum (castVotePost ⟨[⟨10, 1, 0, 0, 0, []⟩],
          [⟨20, 1, 10, none, 0, 1, 0, [⟨3, 1⟩]⟩], [⟨1, 5⟩]⟩ 2 10 1).1 1)
    ∧ userKarma (castVoteComment ⟨[⟨10, 1, 0, 0, 0, []⟩],
        [⟨20, 1, 10, none, 0, 1, 0, [⟨3, 1⟩]⟩], [⟨1, 5⟩]⟩ 2 20 1).1 1
      = some (postKarmaSum (castVoteComment ⟨[⟨10, 1, 0, 0, 0, []⟩],
          [⟨20, 1, 10, none, 0, 1, 0, [⟨3, 1⟩]⟩], [⟨1, 5⟩]⟩ 2 20 1).1 1
        + commentKarmaSum (castVoteComment ⟨[⟨10, 1, 0, 0, 0, []⟩],
          [⟨20, 1, 10, none, 0, 1, 0, [⟨3, 1⟩]⟩], [⟨1, 5⟩]⟩ 2 20 1).1 1) :=
  ⟨karma_after_cast_amended.1 ⟨[⟨10, 1, 0, 0, 0, []⟩],
      [⟨20, 1, 10, none, 0, 1, 0, [⟨3, 1⟩]⟩], [⟨1, 5⟩]⟩ 2 10 1 (by decide)
      ⟨10, 1, 0, 0, 0, []⟩ (by decide) (by decide),
   karma_after_cast_amended.2 ⟨[⟨10, 1, 0, 0, 0, []⟩],
      [⟨20, 1, 10, none, 0, 1, 0, [⟨3, 1⟩]⟩], [⟨1, 5⟩]⟩ 2 20 1 (by decide)
      ⟨20, 1, 10, none, 0, 1, 0, [⟨3, 1⟩]⟩ (by decide) (by decide)⟩

/-! ### C8: a karma-step failure and the enclosing cast -/

/-- C8 counterexample.  With the author's user record present and the karma
`user.save()` throwing, the handler's surrounding `catch` answers with the
400 error — not with success — although the counter update and the vote
record were already persisted by `post.save()` (the state shows upvotes 1
and the recorded vote). -/
theorem karma_failure_fails_cast_counterexample :
    castVotePostAux true ⟨[⟨10, 1, 0, 0, 0, []⟩], [], [⟨1, 0⟩]⟩ 2 10 1
      = (⟨[⟨10, 1, 1, 0, 0, [⟨2, 1⟩]⟩], [], [⟨1, 0⟩]⟩, .saveError)
    ∧ VoteOutcome.saveError ≠ .ok 1 0 := by decide

/-- C8 as amended.  Only the *lookup* half of the karma step is harmless:
when the author's user record does not exist the karma step is skipped and
the cast still reports success with the updated counters, leaving users
untouched.  But when the karma write itself fails, the handler reports the
400 error to the caller — even though the posts collection already holds the
same mutated target the fault-free run produces. -/
theorem karma_failure_amended :
    (∀ (db : DB) (u tid : Nat) (v : Int), (v = 1 ∨ v = 0 ∨ v = -1) →
      ∀ post : Post, db.posts.find? (fun p => p.id == tid) = some post →
        db.users.find? (fun x => x.id == post.author) = none →
        (castVotePost db u tid v).2
            = .ok (castVoteOnCounters u v post.upvotes post.downvotes post.voters).1
                  (castVoteOnCounters u v post.upvotes post.downvotes post.voters).2.1
          ∧ (castVotePost db u tid v).1.users = db.users)
    ∧ (∀ (db : DB) (u tid : Nat) (v : Int), (v = 1 ∨ v = 0 ∨ v = -1) →
      ∀ post : Post, db.posts.find? (fun p => p.id == tid) = some post →
        (db.users.find? (fun x => x.id == post.author)).isSome →
        (castVotePostAux true db u tid v).2 = .saveError
          ∧ (castVotePostAux true db u tid v).1.posts
              = (castVotePost db u tid v).1.posts) := by
  constructor
  · intro db u tid v hv post hfind hnone
    unfold castVotePost castVotePostAux
    rw [if_neg (not_not_intro hv), hfind]
    dsimp only
    rw [hnone]
    exact ⟨rfl, rfl⟩
  · intro db u tid v hv post hfind hus
    rcases Option.isSome_iff_exists.mp hus with ⟨usr, husr⟩
    constructor
    · unfold castVotePostAux
      rw [if_neg (not_not_intro hv), hfind]
      dsimp only
      rw [husr]
      rfl
    · rw [castVotePostAux_posts true db u tid v hv post hfind,
        show castVotePost db u tid v = castVotePostAux false db u tid v from rfl,
        castVotePostAux_posts false db u tid v hv post hfind]

/-- Witness for the amended C8, at the same one-post state: with no user
record for author 1 the cast succeeds with counters (1, 0); with the user
record present and the karma write failing, the response is the error while
the posts collection matches the fault-free run's. -/
theorem karma_failure_amended_witness :
    ((castVotePost ⟨[⟨10, 1, 0, 0, 0, []⟩], [], []⟩ 2 10 1).2
        = .ok (castVoteOnCounters 2 1 0 0 []).1 (castVoteOnCounters 2 1 0 0 []).2.1
      ∧ (castVotePost ⟨[⟨10, 1, 0, 0, 0, []⟩], [], []⟩ 2 10 1).1.users = [])
    ∧ ((castVotePostAux true ⟨[⟨10, 1, 0, 0, 0, []⟩], [], [⟨1, 0⟩]⟩ 2 10 1).2 = .saveError
      ∧ (castVotePostAux true ⟨[⟨10, 1, 0, 0, 0, []⟩], [], [⟨1, 0⟩]⟩ 2 10 1).1.posts
          = (castVotePost ⟨[⟨10, 1, 0, 0, 0, []⟩], [], [⟨1, 0⟩]⟩ 2 10 1).1.posts) :=
  ⟨karma_failure_amended.1 ⟨[⟨10, 1, 0, 0, 0, []⟩], [], []⟩ 2 10 1 (by decide)
      ⟨10, 1, 0, 0, 0, []⟩ (by decide) (by decide),
   karma_failure_amended.2 ⟨[⟨10, 1, 0, 0, 0, []⟩], [], [⟨1, 0⟩]⟩ 2 10 1 (by decide)
      ⟨10, 1, 0, 0, 0, []⟩ (by decide) (by decide)⟩

/-! ### C9: retracting a non-existent vote -/

/-- C9.  Casting vote value 0 when the caller has no entry in the target's
voters array is a no-op that still succeeds: the posts and comments
collections are left exactly as they were (so the target's counters, its
voters list, and every karma input — every stored upvote/downvote — are
unchanged), and the response is the normal success carrying the unchanged
counter values.  Stated for the post handler and the comment handler, for
stores with distinct ids. -/
theorem castZero_no_record_noop :
    (∀ (db : DB) (u tid : Nat), ∀ post : Post,
      db.posts.find? (fun p => p.id == tid) = some post →
      post.voters.find? (fun w => w.user == u) = none →
      (db.posts.map (fun p => p.id)).Nodup →
      (castVotePost db u tid 0).1.posts = db.posts
        ∧ (castVotePost db u tid 0).1.comments = db.comments
        ∧ (castVotePost db u tid 0).2 = .ok post.upvotes post.downvotes)
    ∧ (∀ (db : DB) (u cid : Nat), ∀ comment : Comment,
      db.comments.find? (fun c => c.id == cid) = some comment →
      comment.voters.find? (fun w => w.user == u) = none →
      (db.comments.map (fun c => c.id)).Nodup →
      (castVoteComment db u cid 0).1.comments = db.comments
        ∧ (castVoteComment db u cid 0).1.posts = db.posts
        ∧ (castVoteComment db u cid 0).2 = .ok comment.upvotes comment.downvotes) := by
  constructor
  · intro db u tid post hfind hvoter hnodup
    have hv : (0 : Int) = 1 ∨ (0 : Int) = 0 ∨ (0 : Int) = -1 := Or.inr (Or.inl rfl)
    have hr : castVoteOnCounters u 0 post.upvotes post.downvotes post.voters
        = (post.upvotes, post.downvotes, post.voters) := by
      unfold castVoteOnCounters
      rw [hvoter]
      simp
    have h1 := castVotePostAux_posts false db u tid 0 hv post hfind
    rw [hr] at h1
    dsimp only at h1
    have h2 := mapReplace_self_of_nodup (fun p : Post => p.id) tid db.posts post
      hnodup hfind
    have hok := castVotePost_ok db u tid 0 hv post hfind
    refine ⟨h1.trans h2, hok.2, ?_⟩
    rw [hok.1, hr]
  · intro db u cid comment hfind hvoter hnodup
    have hv : (0 : Int) = 1 ∨ (0 : Int) = 0 ∨ (0 : Int) = -1 := Or.inr (Or.inl rfl)
    have hr : castVoteOnCounters u 0 comment.upvotes comment.downvotes comment.voters
        = (comment.upvotes, comment.downvotes, comment.voters) := by
      unfold castVoteOnCounters
      rw [hvoter]
      simp
    have h1 := castVoteComment_comments db u cid 0 hv comment hfind
    rw [hr] at h1
    dsimp only at h1
    have h2 := mapReplace_self_of_nodup (fun c : Comment => c.id) cid db.comments comment
      hnodup hfind
    have hok := castVoteComment_ok db u cid 0 hv comment hfind
    refine ⟨h1.trans h2, hok.2, ?_⟩
    rw [hok.1, hr]

/-- Witness for C9: user 5 casts 0 on post 10 and on comment 20, having
voted on neither; both stores are untouched and both responses echo the
stored counters. -/
theorem castZero_no_record_noop_witness :
    ((castVotePost ⟨[⟨10, 1, 3, 1, 0, [⟨2, 1⟩]⟩], [], [⟨1, 9⟩]⟩ 5 10 0).1.posts
        = [⟨10, 1, 3, 1, 0, [⟨2, 1⟩]⟩]
      ∧ (castVotePost ⟨[⟨10, 1, 3, 1, 0, [⟨2, 1⟩]⟩], [], [⟨1, 9⟩]⟩ 5 10 0).1.comments = []
      ∧ (castVotePost ⟨[⟨10, 1, 3, 1, 0, [⟨2, 1⟩]⟩], [], [⟨1, 9⟩]⟩ 5 10 0).2 = .ok 3 1)
    ∧ ((castVoteComment ⟨[], [⟨20, 1, 10, none, 0, 2, 0, [⟨2, 1⟩]⟩], []⟩ 5 20 0).1.comments
        = [⟨20, 1, 10, none, 0, 2, 0, [⟨2, 1⟩]⟩]
      ∧ (castVoteComment ⟨[], [⟨20, 1, 10, none, 0, 2, 0, [⟨2, 1⟩]⟩], []⟩ 5 20 0).1.posts = []
      ∧ (castVoteComment ⟨[], [⟨20, 1, 10, none, 0, 2, 0, [⟨2, 1⟩]⟩], []⟩ 5 20 0).2
          = .ok 2 0) :=
  ⟨castZero_no_record_noop.1 ⟨[⟨10, 1, 3, 1, 0, [⟨2, 1⟩]⟩], [], [⟨1, 9⟩]⟩ 5 10
      ⟨10, 1, 3, 1, 0, [⟨2, 1⟩]⟩ (by decide) (by decide) (by decide),
   castZero_no_record_noop.2 ⟨[], [⟨20, 1, 10, none, 0, 2, 0, [⟨2, 1⟩]⟩], []⟩ 5 20
      ⟨20, 1, 10, none, 0, 2, 0, [⟨2, 1⟩]⟩ (by decide) (by decide) (by decide)⟩

/-! ### C2: counter conservation on a fresh target -/

/-- Tallies of the voters array left by first-time casts: the `+1` count is
the count of casts with value `+1`, likewise for `-1`. -/
theorem countP_votersOfCasts (s : List (Nat × Int)) :
    (votersOfCasts s).countP (fun w => w.vote == 1) = s.countP (fun c => c.2 == 1)
      ∧ (votersOfCasts s).countP (fun w => w.vote == -1)
        = s.countP (fun c => c.2 == -1) := by
  induction s with
  | nil => simp [votersOfCasts]
  | cons c s' ih =>
      by_cases h0 : c.2 = 0
      · simp [votersOfCasts, List.countP_cons, h0] at ih ⊢
        exact ih
      · simp only [votersOfCasts, List.filter_cons] at ih ⊢
        rw [if_pos (by simpa using h0)]
        simp only [List.map_cons, List.countP_cons] at ih ⊢
        constructor
        · rw [ih.1]
        · rw [ih.2]

/-- A sequence of valid casts by distinct users, none of whom is recorded in
the starting voters array, adds exactly its `+1`/`-1` tallies to the
counters and appends one record per non-zero cast. -/
theorem applyCounterCasts_fresh :
    ∀ (s : List (Nat × Int)) (up down : Int) (voters : List Voter),
      (∀ c ∈ s, c.2 = 1 ∨ c.2 = 0 ∨ c.2 = -1) →
      (∀ c ∈ s, voters.find? (fun w => w.user == c.1) = none) →
      (s.map Prod.fst).Nodup →
      applyCounterCasts s (up, down, voters)
        = (up + (s.countP (fun c => c.2 == 1) : Int),
           down + (s.countP (fun c => c.2 == -1) : Int),
           voters ++ votersOfCasts s) := by
  intro s
  induction s with
  | nil => intro up down voters _ _ _; simp [applyCounterCasts, votersOfCasts]
  | cons c s' ih =>
      intro up down voters hval hfresh hnd
      have hv : c.2 = 1 ∨ c.2 = 0 ∨ c.2 = -1 := hval c (List.mem_cons_self c s')
      have hf0 : voters.find? (fun w => w.user == c.1) = none :=
        hfresh c (List.mem_cons_self c s')
      simp only [List.map_cons, List.nodup_cons] at hnd
      have hstep : applyCounterCasts (c :: s') (up, down, voters)
          = applyCounterCasts s'
              (castVoteOnCounters c.1 c.2 up down voters) := by
        simp [applyCounterCasts]
      by_cases h0 : c.2 = 0
      · have hcast : castVoteOnCounters c.1 c.2 up down voters = (up, down, voters) := by
          unfold castVoteOnCounters
          rw [hf0, if_pos h0]
        rw [hstep, hcast, ih up down voters
          (fun d hd => hval d (List.mem_cons_of_mem c hd))
          (fun d hd => hfresh d (List.mem_cons_of_mem c hd)) hnd.2]
        simp [votersOfCasts, List.filter_cons, h0, List.countP_cons]
      · have hcast : castVoteOnCounters c.1 c.2 up down voters
            = ((if c.2 = 1 then up + 1 else up),
               (if c.2 = -1 then down + 1 else down),
               voters ++ [{ user := c.1, vote := c.2 }]) := by
          unfold castVoteOnCounters
          rw [hf0, if_neg h0]
        have hfresh' : ∀ d ∈ s',
            (voters ++ [Voter.mk c.1 c.2]).find?
              (fun w => w.user == d.1) = none := by
          intro d hd
          rw [List.find?_append, hfresh d (List.mem_cons_of_mem c hd)]
          have hne : c.1 ≠ d.1 := by
            intro he
            exact hnd.1 (he ▸ List.mem_map_of_mem Prod.fst hd)
          simp [List.find?_cons, hne]
        rw [hstep, hcast, ih _ _ _
          (fun d hd => hval d (List.mem_cons_of_mem c hd)) hfresh' hnd.2]
        have hvoters : votersOfCasts (c :: s')
            = Voter.mk c.1 c.2 :: votersOfCasts s' := by
          simp only [votersOfCasts, List.filter_cons]
          rw [if_pos (by simpa using h0)]
          simp [votersOfCasts]
        rw [hvoters]
        simp only [Prod.mk.injEq]
        refine ⟨?_, ?_, ?_⟩
        · rcases hv with h | h | h <;> simp [h, List.countP_cons] <;> omega
        · rcases hv with h | h | h <;> simp [h, List.countP_cons] <;> omega
        · simp

/-- One cast on a one-post store whose post carries the target id updates
exactly that post by the counter/voters step. -/
theorem applyCasts_singleton (tid : Nat) :
    ∀ (s : List (Nat × Int)) (db : DB) (p : Post),
      db.posts = [p] → (p.id == tid) = true →
      (∀ c ∈ s, c.2 = 1 ∨ c.2 = 0 ∨ c.2 = -1) →
      (applyCasts tid s db).posts
        = [{ p with
              upvotes := (applyCounterCasts s (p.upvotes, p.downvotes, p.voters)).1,
              downvotes := (applyCounterCasts s (p.upvotes, p.downvotes, p.voters)).2.1,
              voters := (applyCounterCasts s (p.upvotes, p.downvotes, p.voters)).2.2 }] := by
  intro s
  induction s with
  | nil =>
      intro db p hdb hpid hval
      simpa [applyCasts, applyCounterCasts] using hdb
  | cons c s' ih =>
      intro db p hdb hpid hval
      have hv : c.2 = 1 ∨ c.2 = 0 ∨ c.2 = -1 := hval c (List.mem_cons_self c s')
      have hfind : db.posts.find? (fun q => q.id == tid) = some p := by
        rw [hdb]
        simp [List.find?_cons, hpid]
      have hposts := castVotePostAux_posts false db c.1 tid c.2 hv p hfind
      rw [hdb] at hposts
      simp only [List.map_cons, List.map_nil, hpid, if_true] at hposts
      have happly : applyCasts tid (c :: s') db
          = applyCasts tid s' (castVotePost db c.1 tid c.2).1 := by
        simp [applyCasts]
      rw [happly,
        ih (castVotePost db c.1 tid c.2).1 _ hposts hpid
          (fun d hd => hval d (List.mem_cons_of_mem c hd))]
      rfl

/-- C2.  Starting from a fresh target (zero counters, empty voters array),
any settled sequence of valid casts by pairwise-distinct users leaves the
post with: a voters array holding exactly each user's cast vote (their last
recorded vote — zero-casts leave no record), `upvotes` equal to the number
of users whose recorded vote is `+1` (equivalently, whose cast was `+1`),
and `downvotes` the analogous `-1` count. -/
theorem counter_conservation (tid a : Nat) (cs : List Comment) (us : List User)
    (s : List (Nat × Int))
    (hval : ∀ c ∈ s, c.2 = 1 ∨ c.2 = 0 ∨ c.2 = -1)
    (hnd : (s.map Prod.fst).Nodup) :
    ∃ p : Post,
      (applyCasts tid s ⟨[⟨tid, a, 0, 0, 0, []⟩], cs, us⟩).posts = [p]
        ∧ p.voters = votersOfCasts s
        ∧ p.upvotes = (p.voters.countP (fun w => w.vote == 1) : Int)
        ∧ p.downvotes = (p.voters.countP (fun w => w.vote == -1) : Int)
        ∧ p.upvotes = (s.countP (fun c => c.2 == 1) : Int)
        ∧ p.downvotes = (s.countP (fun c => c.2 == -1) : Int) := by
  have hbridge := applyCasts_singleton tid s ⟨[⟨tid, a, 0, 0, 0, []⟩], cs, us⟩
    ⟨tid, a, 0, 0, 0, []⟩ rfl (by simp) hval
  have hfresh := applyCounterCasts_fresh s 0 0 []
    hval (fun c _ => rfl) hnd
  rw [hfresh] at hbridge
  refine ⟨_, hbridge, rfl, ?_, ?_, ?_, ?_⟩ <;>
    simp [countP_votersOfCasts s]

/-- Witness for C2: users 1, 2, 3 cast +1, −1, +1 on a fresh post; the final
post records the three votes with upvotes 2 and downvotes 1. -/
theorem counter_conservation_witness :
    ∃ p : Post,
      (applyCasts 10 [(1, 1), (2, -1), (3, 1)]
          ⟨[⟨10, 7, 0, 0, 0, []⟩], [], []⟩).posts = [p]
        ∧ p.voters = votersOfCasts [(1, 1), (2, -1), (3, 1)]
        ∧ p.upvotes = (p.voters.countP (fun w => w.vote == 1) : Int)
        ∧ p.downvotes = (p.voters.countP (fun w => w.vote == -1) : Int)
        ∧ p.upvotes = ([(1, 1), (2, -1), (3, 1)].countP (fun c => c.2 == 1) : Int)
        ∧ p.downvotes = ([(1, 1), (2, -1), (3, 1)].countP (fun c => c.2 == -1) : Int) :=
  counter_conservation 10 7 [] [] [(1, 1), (2, -1), (3, 1)] (by decide) (by decide)

/-! ### C3: idempotence of a repeated cast -/

/-- Repeating the same cast leaves the counter/voters triple fixed: the
second application of the counter/voters step with the same user and value
returns its input (the result of the first), provided the voters array had
no duplicate users. -/
theorem castVoteOnCounters_idem (u : Nat) (v : Int) (hv : v = 1 ∨ v = 0 ∨ v = -1)
    (up down : Int) (voters : List Voter)
    (hnd : (voters.map (fun w => w.user)).Nodup) :
    castVoteOnCounters u v
        (castVoteOnCounters u v up down voters).1
        (castVoteOnCounters u v up down voters).2.1
        (castVoteOnCounters u v up down voters).2.2
      = castVoteOnCounters u v up down voters := by
  have hu : ((Voter.mk u v).user == u) = true := by simp
  cases hf : voters.find? (fun w => w.user == u) with
  | none =>
      by_cases h0 : v = 0
      · have h1 : castVoteOnCounters u v up down voters = (up, down, voters) := by
          unfold castVoteOnCounters
          rw [hf, if_pos h0]
        rw [h1]
        dsimp only
        exact h1
      · have h1 : castVoteOnCounters u v up down voters
            = ((if v = 1 then up + 1 else up), (if v = -1 then down + 1 else down),
               voters ++ [Voter.mk u v]) := by
          unfold castVoteOnCounters
          rw [hf, if_neg h0]
        have hf2 : (voters ++ [Voter.mk u v]).find? (fun w => w.user == u)
            = some (Voter.mk u v) :=
          find_append_singleton (fun w : Voter => w.user == u) (Voter.mk u v) hu voters hf
        have hset : setFirst (fun w => w.user == u) (Voter.mk u v) (voters ++ [Voter.mk u v])
            = voters ++ [Voter.mk u v] := setFirst_self _ _ _ hf2
        rw [h1]
        dsimp only
        unfold castVoteOnCounters
        rw [hf2]
        dsimp only
        rw [if_neg h0, hset]
        rcases hv with h | h | h
        · subst h
          norm_num
        · exact absurd h h0
        · subst h
          norm_num
  | some w =>
      by_cases h0 : v = 0
      · have h1 : castVoteOnCounters u v up down voters
            = ((if w.vote = 1 then up - 1 else up),
               (if w.vote = -1 then down - 1 else down),
               voters.eraseP (fun w => w.user == u)) := by
          unfold castVoteOnCounters
          rw [hf]
          dsimp only
          rw [if_pos h0]
        have hf2 : (voters.eraseP (fun w => w.user == u)).find? (fun w => w.user == u)
            = none := eraseP_find_none (fun w => w.user) u voters hnd
        rw [h1]
        dsimp only
        unfold castVoteOnCounters
        rw [hf2, if_pos h0]
      · have h1 : castVoteOnCounters u v up down voters
            = ((if v = 1 then (if w.vote = 1 then up - 1 else up) + 1
                  else (if w.vote = 1 then up - 1 else up)),
               (if v = -1 then (if w.vote = -1 then down - 1 else down) + 1
                  else (if w.vote = -1 then down - 1 else down)),
               setFirst (fun w => w.user == u) (Voter.mk u v) voters) := by
          unfold castVoteOnCounters
          rw [hf]
          dsimp only
          rw [if_neg h0]
        have hf2 : (setFirst (fun w => w.user == u) (Voter.mk u v) voters).find?
            (fun w => w.user == u) = some (Voter.mk u v) :=
          setFirst_find (fun w : Voter => w.user == u) (Voter.mk u v) hu voters w hf
        have hset : setFirst (fun w => w.user == u) (Voter.mk u v)
              (setFirst (fun w => w.user == u) (Voter.mk u v) voters)
            = setFirst (fun w => w.user == u) (Voter.mk u v) voters :=
          setFirst_self _ _ _ hf2
        rw [h1]
        dsimp only
        unfold castVoteOnCounters
        rw [hf2]
        dsimp only
        rw [if_neg h0, hset]
        rcases hv with h | h | h
        · subst h
          norm_num
        · exact absurd h h0
        · subst h
          norm_num

/-- Overwriting the author's karma twice (second time with an equal value)
is the same as overwriting it once. -/
theorem karmaSet_twice (A : Nat) (k k2 : Int) (hk : k2 = k) (l : List User) :
    ((l.map (fun x => if x.id == A then { x with karma := k } else x)).map
        (fun x => if x.id == A then { x with karma := k2 } else x))
      = l.map (fun x => if x.id == A then { x with karma := k } else x) := by
  subst hk
  rw [List.map_map]
  apply List.map_congr_left
  intro x _
  by_cases hx : (x.id == A) = true
  · have hx2 : x.id = A := by simpa using hx
    simp [hx2]
  · have hx2 : ¬ x.id = A := by simpa using hx
    simp [hx2]

/-- Full result of a valid post vote when the author's user record is
absent: the posts collection is rewritten, users and comments stay, the
response reports the updated counters. -/
theorem castVotePost_state_noUser (db : DB) (u tid : Nat) (v : Int)
    (hv : v = 1 ∨ v = 0 ∨ v = -1) (post : Post)
    (hfind : db.posts.find? (fun p => p.id == tid) = some post)
    (husr : db.users.find? (fun x => x.id == post.author) = none) :
    castVotePost db u tid v
      = (⟨db.posts.map (fun p => if p.id == tid then
            { post with
                upvotes := (castVoteOnCounters u v post.upvotes post.downvotes post.voters).1,
                downvotes := (castVoteOnCounters u v post.upvotes post.downvotes post.voters).2.1,
                voters := (castVoteOnCounters u v post.upvotes post.downvotes post.voters).2.2 }
            else p), db.comments, db.users⟩,
         .ok (castVoteOnCounters u v post.upvotes post.downvotes post.voters).1
             (castVoteOnCounters u v post.upvotes post.downvotes post.voters).2.1) := by
  unfold castVotePost castVotePostAux
  rw [if_neg (not_not_intro hv), hfind]
  dsimp only
  rw [husr]

/-- Full result of a valid post vote when the author's user record exists:
the posts collection is rewritten and the author's karma is overwritten with
the posts-only sum computed over the already-saved posts. -/
theorem castVotePost_state_user (db : DB) (u tid : Nat) (v : Int)
    (hv : v = 1 ∨ v = 0 ∨ v = -1) (post : Post)
    (hfind : db.posts.find? (fun p => p.id == tid) = some post) (usr : User)
    (husr : db.users.find? (fun x => x.id == post.author) = some usr) :
    castVotePost db u tid v
      = (⟨db.posts.map (fun p => if p.id == tid then
            { post with
                upvotes := (castVoteOnCounters u v post.upvotes post.downvotes post.voters).1,
                downvotes := (castVoteOnCounters u v post.upvotes post.downvotes post.voters).2.1,
                voters := (castVoteOnCounters u v post.upvotes post.downvotes post.voters).2.2 }
            else p), db.comments,
          db.users.map (fun x => if x.id == post.author then
            { x with karma := (postKarmaSum ⟨db.posts.map (fun p => if p.id == tid then
                  { post with
                      upvotes := (castVoteOnCounters u v post.upvotes post.downvotes post.voters).1,
                      downvotes := (castVoteOnCounters u v post.upvotes post.downvotes post.voters).2.1,
                      voters := (castVoteOnCounters u v post.upvotes post.downvotes post.voters).2.2 }
                  else p), db.comments, db.users⟩ post.author) }
            else x)⟩,
         .ok (castVoteOnCounters u v post.upvotes post.downvotes post.voters).1
             (castVoteOnCounters u v post.upvotes post.downvotes post.voters).2.1) := by
  unfold castVotePost castVotePostAux
  rw [if_neg (not_not_intro hv), hfind]
  dsimp only
  rw [husr]
  simp only [Bool.false_eq_true, ite_false]

/-- C3.  `castVote` on a post is idempotent for every valid vote value:
repeating the same user's same vote returns the identical state (target
counters and vote record included) and the identical response, whenever the
target's voters array holds at most one entry per user. -/
theorem castVotePost_idempotent (db : DB) (u tid : Nat) (v : Int)
    (hv : v = 1 ∨ v = 0 ∨ v = -1)
    (hnd : ∀ p ∈ db.posts, (p.voters.map (fun w => w.user)).Nodup) :
    castVotePost (castVotePost db u tid v).1 u tid v = castVotePost db u tid v := by
  cases hfind : db.posts.find? (fun p => p.id == tid) with
  | none =>
      have h1 : castVotePost db u tid v = (db, .notFound) := by
        unfold castVotePost castVotePostAux
        rw [if_neg (not_not_intro hv), hfind]
      rw [h1]
      dsimp only
      exact h1
  | some post =>
      have hq : (post.id == tid) = true :=
        @List.find?_some Post (fun p => p.id == tid) post db.posts hfind
      have hndp : (post.voters.map (fun w => w.user)).Nodup :=
        hnd post (List.mem_of_find?_eq_some hfind)
      have hidem := castVoteOnCounters_idem u v hv post.upvotes post.downvotes
        post.voters hndp
      have hfind2 := findReplace_find (fun p : Post => p.id == tid)
        { post with
            upvotes := (castVoteOnCounters u v post.upvotes post.downvotes post.voters).1,
            downvotes := (castVoteOnCounters u v post.upvotes post.downvotes post.voters).2.1,
            voters := (castVoteOnCounters u v post.upvotes post.downvotes post.voters).2.2 }
        hq db.posts post hfind
      cases husr : db.users.find? (fun x => x.id == post.author) with
      | none =>
          have h1 := castVotePost_state_noUser db u tid v hv post hfind husr
          have hfind2' : ((castVotePost db u tid v).1).posts.find?
              (fun p => p.id == tid)
              = some { post with
                  upvotes := (castVoteOnCounters u v post.upvotes post.downvotes
                    post.voters).1,
                  downvotes := (castVoteOnCounters u v post.upvotes post.downvotes
                    post.voters).2.1,
                  voters := (castVoteOnCounters u v post.upvotes post.downvotes
                    post.voters).2.2 } := by
            rw [h1]
            exact hfind2
          have husr2' : ((castVotePost db u tid v).1).users.find?
              (fun x => x.id == post.author) = none := by
            rw [h1]
            exact husr
          have h2 := castVotePost_state_noUser ((castVotePost db u tid v).1)
            u tid v hv _ hfind2' husr2'
          rw [h2, h1]
          try dsimp only
          rw [hidem]
          try dsimp only
          rw [mapReplace_idem (fun p : Post => p.id == tid) _ (by exact hq) db.posts]
      | some usr =>
          have h1 := castVotePost_state_user db u tid v hv post hfind usr husr
          have hfind2' : ((castVotePost db u tid v).1).posts.find?
              (fun p => p.id == tid)
              = some { post with
                  upvotes := (castVoteOnCounters u v post.upvotes post.downvotes
                    post.voters).1,
                  downvotes := (castVoteOnCounters u v post.upvotes post.downvotes
                    post.voters).2.1,
                  voters := (castVoteOnCounters u v post.upvotes post.downvotes
                    post.voters).2.2 } := by
            rw [h1]
            exact hfind2
          have husr2' : ((castVotePost db u tid v).1).users.find?
              (fun x => x.id == post.author)
              = some { usr with karma := (postKarmaSum ⟨db.posts.map
                  (fun p => if p.id == tid then
                    { post with
                        upvotes := (castVoteOnCounters u v post.upvotes post.downvotes
                          post.voters).1,
                        downvotes := (castVoteOnCounters u v post.upvotes post.downvotes
                          post.voters).2.1,
                        voters := (castVoteOnCounters u v post.upvotes post.downvotes
                          post.voters).2.2 }
                    else p), db.comments, db.users⟩ post.author) } := by
            rw [h1]
            exact userKarma_after_set db.users post.author _ usr husr
          have h2 := castVotePost_state_user ((castVotePost db u tid v).1)
            u tid v hv _ hfind2' _ husr2'
          rw [h2, h1]
          try dsimp only
          rw [hidem]
          try dsimp only
          rw [mapReplace_idem (fun p : Post => p.id == tid) _ (by exact hq) db.posts]
          congr 1
          congr 1
          exact karmaSet_twice post.author _ _ rfl db.users

/-- Witness for C3: user 2 upvotes post 10 twice in a row; the second call
returns exactly the first call's state and response. -/
theorem castVotePost_idempotent_witness :
    castVotePost (castVotePost ⟨[⟨10, 1, 0, 0, 0, []⟩], [], [⟨1, 4⟩]⟩ 2 10 1).1 2 10 1
      = castVotePost ⟨[⟨10, 1, 0, 0, 0, []⟩], [], [⟨1, 4⟩]⟩ 2 10 1 :=
  castVotePost_idempotent ⟨[⟨10, 1, 0, 0, 0, []⟩], [], [⟨1, 4⟩]⟩ 2 10 1
    (by decide) (by decide)

/-! ### C5 and C7: the assembled comment forest -/

/-- `sort({ createdAt: -1 })` returns a newest-first list. -/
theorem sortNewestFirst_sorted (l : List Comment) :
    List.Sorted (fun a b : Comment => b.createdAt ≤ a.createdAt) (sortNewestFirst l) := by
  have h := @List.sorted_mergeSort Comment
    (fun a b : Comment => decide (b.createdAt ≤ a.createdAt))
    (by intro a b c hab hbc; simp at hab hbc ⊢; omega)
    (by intro a b; simp; omega) l
  exact h.imp (fun hab => by simpa using hab)

/-- `sort({ createdAt: 1 })` returns an oldest-first list. -/
theorem sortOldestFirst_sorted (l : List Comment) :
    List.Sorted (fun a b : Comment => a.createdAt ≤ b.createdAt) (sortOldestFirst l) := by
  have h := @List.sorted_mergeSort Comment
    (fun a b : Comment => decide (a.createdAt ≤ b.createdAt))
    (by intro a b c hab hbc; simp at hab hbc ⊢; omega)
    (by intro a b; simp; omega) l
  exact h.imp (fun hab => by simpa using hab)

/-- `populateReplies` decorates each comment of its input list in place, so
any pairwise relation between the input comments carries over to the
produced nodes. -/
theorem populateReplies_pairwise (all : List Comment) (fuel : Nat)
    (cs : List Comment) (R : Comment → Comment → Prop)
    (h : List.Pairwise R cs) :
    List.Pairwise (fun a b : CommentNode => R a.comment b.comment)
      (populateReplies all fuel cs) := by
  cases fuel with
  | zero =>
      simp only [populateReplies]
      exact List.Pairwise.map _ (fun a b hab => hab) h
  | succ fuel =>
      simp only [populateReplies]
      exact List.Pairwise.map _ (fun a b hab => hab) h

/-- Every node `populateReplies` produces has its replies, at every depth,
in ascending `createdAt` order. -/
theorem populateReplies_ordered (all : List Comment) :
    ∀ (fuel : Nat) (cs : List Comment), ∀ n ∈ populateReplies all fuel cs,
      RepliesOrdered n := by
  intro fuel
  induction fuel with
  | zero =>
      intro cs n hn
      simp only [populateReplies] at hn
      rcases List.mem_map.mp hn with ⟨c, hc, rfl⟩
      exact RepliesOrdered.mk c [] List.sorted_nil (by simp)
  | succ fuel ih =>
      intro cs n hn
      simp only [populateReplies] at hn
      rcases List.mem_map.mp hn with ⟨c, hc, rfl⟩
      refine RepliesOrdered.mk c _ ?_ ?_
      · exact populateReplies_pairwise all fuel _ _
          (sortOldestFirst_sorted (all.filter (fun r => r.parentId == some c.id)))
      · intro rnode hr
        exact ih _ rnode hr

/-- C5.  `buildTree` orders the forest asymmetrically: the root comments of
the post come sorted by `createdAt` descending (newest first), and inside
every node, at every depth, the direct replies are sorted by `createdAt`
ascending (oldest first). -/
theorem buildTree_ordering (all : List Comment) (postId : Nat) :
    List.Sorted (fun a b : CommentNode => b.comment.createdAt ≤ a.comment.createdAt)
        (buildTree all postId)
      ∧ ∀ n ∈ buildTree all postId, RepliesOrdered n := by
  constructor
  · unfold buildTree
    exact populateReplies_pairwise all _ _ _
      (sortNewestFirst_sorted (all.filter (fun c => c.post == postId && c.parentId == none)))
  · unfold buildTree
    intro n hn
    exact populateReplies_ordered all _ _ n hn

/-- C7.  When `post_id` references no existing post (and comments only ever
reference existing posts), `buildTree` returns the empty forest — it
performs no post-existence check and signals no error. -/
theorem buildTree_missing_post (db : DB) (postId : Nat)
    (hpost : ∀ p ∈ db.posts, p.id ≠ postId)
    (href : ∀ c ∈ db.comments, ∃ p ∈ db.posts, c.post = p.id) :
    buildTree db.comments postId = [] := by
  have hfilter : db.comments.filter
      (fun c => c.post == postId && c.parentId == none) = [] := by
    rw [List.filter_eq_nil_iff]
    intro c hc
    rcases href c hc with ⟨p, hp, he⟩
    have hne : c.post ≠ postId := by
      rw [he]
      exact hpost p hp
    simp [hne]
  unfold buildTree
  rw [hfilter]
  have hsort : sortNewestFirst [] = ([] : List Comment) := by
    simp [sortNewestFirst]
  rw [hsort]
  cases db.comments.length with
  | zero => simp [populateReplies]
  | succ fuel => simp [populateReplies]

/-- Witness for C7: an empty store and post id 5. -/
theorem buildTree_missing_post_witness :
    buildTree (DB.mk [] [] []).comments 5 = [] :=
  buildTree_missing_post ⟨[], [], []⟩ 5 (by simp) (by simp)
